import Mathlib

/-!
Verification of the incremental-extraction core of the `postgres_to_es` ETL.

The development shallowly embeds the two source modules:

* `etl/movies_database.py` — watermark-driven chunked pagination over three
  tables (film_work, person, genre), the two-stage cascade that turns
  "a related entity changed" into "these filmworks must be re-fetched",
  and the query builders;
* `etl/backoff.py` — the exponential-backoff retry decorator.

Modelling conventions:

* change markers (Python `datetime` values in the `modified` column) are
  natural numbers; the epoch / "beginning of time" marker is `0`;
* the watermark store (`etl.state`, whose source is not part of the
  repository snapshot) is modelled from the spec as an association list of
  string keys to markers, with `get` returning the epoch for absent keys,
  `save` overriding, and `reset` writing the epoch back;
* the database is immutable during a run.  The query executor
  (`psycopg` connection + `fetchall`) is modelled by evaluating the built
  query against the in-memory tables: filter by the `WHERE` clause, sort
  ascending by `modified` (the `ORDER BY modified` clause), truncate to
  `LIMIT _CHUNK_SIZE`.  `SELECT DISTINCT` is modelled by assuming tables
  carry no duplicate rows, in which case it removes nothing;
* Python generators threading state through the external watermark store
  become explicit state-passing functions returning the list of emitted
  pages, the final store state, and the trace of markers passed to
  `state.save`;
* the unbounded `while should_generate` loops take a fuel argument; the
  top-level pipeline instantiates fuel with `table.length + 1`, which is
  proved adequate (the loop always reaches its empty page within that
  many iterations, because each non-empty page strictly shrinks the set
  of rows above the watermark);
* in the pipeline model rows double as the typed output records, so the
  pydantic `_normalize` step is the identity there; the fallible
  normalization and the retry wrapper are modelled faithfully in the
  error-handling section (`Fault`, `_normalize`, `backoffRun`).
-/

/-- A change marker (the `modified` timestamp column), modelled as a Nat. -/
abbrev Marker := Nat

/-- The epoch / minimum marker that `state.get` yields for an absent key and
`state.reset` restores. -/
def epoch : Marker := 0

/-- The watermark store contents: an association list from stream keys to
markers.  Later bindings shadow earlier ones. -/
abbrev St := List (String × Marker)

/-- Modelled from the spec: the watermark store is missing from the source
snapshot (`etl.state`); per the spec, `get(key)` returns the last saved
marker for `key`, or a well-defined minimum/epoch marker if absent. -/
def stGet (s : St) (k : String) : Marker :=
  match s.find? (fun p => p.1 == k) with
  | some p => p.2
  | none => epoch

/-- Modelled from the spec: `save(key, marker)` persists `marker` under
`key`, overriding the previous binding. -/
def stSave (s : St) (k : String) (m : Marker) : St := (k, m) :: s

/-- Modelled from the spec: `reset(key)` sets the watermark for `key` back
to the epoch marker. -/
def stReset (s : St) (k : String) : St := (k, epoch) :: s

/-- A database row as the executor returns it: an id, a `modified` marker,
and (for film_work rows) the ids of related persons and genres reachable
through the `person_film_work` / `genre_film_work` link tables. -/
structure Row where
  id : Nat
  modified : Marker
  persons : List Nat := []
  genres : List Nat := []
deriving DecidableEq, Repr

/-- The `Entity` enum of `movies_database.py`. -/
inductive Entity
  | filmwork
  | person
  | genre
deriving DecidableEq, Repr

/-- The string value of each `Entity` member. -/
def Entity.name : Entity → String
  | .filmwork => "filmwork"
  | .person => "person"
  | .genre => "genre"

/-- `_get_state_key`: append the fixed suffix to the key prefix. -/
def _get_state_key (pre : String) : String := pre ++ "_last_seen_modified"

/-- `_CHUNK_SIZE` from `movies_database.py`. -/
def _CHUNK_SIZE : Nat := 100

/-- The three tables of the `content` schema that the queries touch. -/
structure DB where
  film_work : List Row
  person : List Row
  genre : List Row
deriving Repr

/-- Table lookup by entity kind. -/
def DB.table (db : DB) : Entity → List Row
  | .filmwork => db.film_work
  | .person => db.person
  | .genre => db.genre

/-- The link-table references of a film_work row for a given related kind
(`person_film_work` / `genre_film_work`). -/
def Row.refs (r : Row) : Entity → List Nat
  | .person => r.persons
  | .genre => r.genres
  | .filmwork => []

/-- The `ORDER BY modified` comparison. -/
def byModified (a b : Row) : Prop := a.modified ≤ b.modified

instance : DecidableRel byModified := fun a b => Nat.decLe a.modified b.modified

instance : IsTotal Row byModified := ⟨fun a b => Nat.le_total a.modified b.modified⟩

instance : IsTrans Row byModified := ⟨fun _ _ _ => Nat.le_trans⟩

/-- The rows of `table` satisfying a `WHERE p AND modified > wm` clause. -/
def matching (table : List Row) (p : Row → Bool) (wm : Marker) : List Row :=
  table.filter (fun r => p r && decide (wm < r.modified))

/-- Executor semantics of a built page query: `WHERE p AND modified > wm
ORDER BY modified LIMIT _CHUNK_SIZE`. -/
def runQuery (table : List Row) (p : Row → Bool) (wm : Marker) : List Row :=
  (List.insertionSort byModified (matching table p wm)).take _CHUNK_SIZE

/-- Executor semantics of the queries built by `_build_sql_requesting_entity`,
`_build_sql_requesting_genres`, `_build_sql_requesting_personas` and the
watermark branch of `_build_sql_requesting_filmworks`: all select the rows
of one table with `modified > wm`, ordered by `modified`, limited to
`_CHUNK_SIZE`. -/
def execEntityQuery (table : List Row) (wm : Marker) : List Row :=
  runQuery table (fun _ => true) wm

/-- Executor semantics of the query built by
`_build_sql_requesting_filmworks_ids_with_entity`: film_work rows joined to
the link table with `entity_id IN (entity_ids)` and `modified > wm`,
ordered by `modified`, limited to `_CHUNK_SIZE`. -/
def execCascadeQuery (fwTable : List Row) (e : Entity) (entity_ids : List Nat)
    (wm : Marker) : List Row :=
  runQuery fwTable (fun f => (f.refs e).any (fun i => entity_ids.contains i)) wm

/-- Executor semantics of the by-id branch of
`_build_sql_requesting_filmworks`: `WHERE fw.id IN (ids) ORDER BY
fw.modified`, with no watermark condition and no `LIMIT`. -/
def execByIdsQuery (fwTable : List Row) (ids : List Nat) : List Row :=
  List.insertionSort byModified (fwTable.filter (fun f => ids.contains f.id))

/-- The shape of the query `_build_sql_requesting_filmworks` interpolates:
either a by-id lookup or a watermark-bounded page. -/
inductive FwQuery
  | byIds (ids : List Nat)
  | byModified (wm : Marker)
deriving DecidableEq, Repr

/-- `_build_sql_requesting_filmworks(ids, last_seen_modified)`.  Python's
`if ids:` treats both `None` and the empty list as false; in the false
branch `assert last_seen_modified is not None` fires when no marker was
given — the `none` result models that `AssertionError`. -/
def _build_sql_requesting_filmworks (ids : Option (List Nat))
    (last_seen_modified : Option Marker) : Option FwQuery :=
  match ids with
  | some (i :: rest) => some (.byIds (i :: rest))
  | _ =>
    match last_seen_modified with
    | some wm => some (.byModified wm)
    | none => none

/-- Executor semantics of a `FwQuery`. -/
def execFwQuery (fwTable : List Row) : FwQuery → List Row
  | .byIds ids => execByIdsQuery fwTable ids
  | .byModified wm => execEntityQuery fwTable wm

/-- `entities[-1]["modified"]`: the marker of the last row of a page
(`epoch` for the empty page, on which the loops never call it). -/
def lastModified (l : List Row) : Marker :=
  (l.getLast?).elim epoch Row.modified

/-- `_get_updated_entity(entity)`: the direct-change reader loop.  Each
iteration reads the watermark, executes the page query, and on a non-empty
page saves the last row's marker and yields the page; an empty page ends
the stream.  Returns (pages, final store state, trace of saved markers). -/
def _get_updated_entity (db : DB) (e : Entity) :
    Nat → St → List (List Row) × St × List Marker
  | 0, s => ([], s, [])
  | fuel + 1, s =>
    let key := _get_state_key e.name
    let last_seen_modified := stGet s key
    let entities := execEntityQuery (db.table e) last_seen_modified
    if entities.isEmpty then ([], s, [])
    else
      let m := lastModified entities
      let r := _get_updated_entity db e fuel (stSave s key m)
      (entities :: r.1, r.2.1, m :: r.2.2)

/-- `get_updated_genres()`. -/
def get_updated_genres (db : DB) (s : St) : List (List Row) × St × List Marker :=
  _get_updated_entity db .genre (db.genre.length + 1) s

/-- `get_updated_personas()`. -/
def get_updated_personas (db : DB) (s : St) : List (List Row) × St × List Marker :=
  _get_updated_entity db .person (db.person.length + 1) s

/-- `_get_updated_related_entities_ids(entity)`: Stage A of the cascade.
Same loop shape as `_get_updated_entity` but keyed by `"<entity>_related"`
and yielding the ids of each page. -/
def _get_updated_related_entities_ids (table : List Row) (e : Entity) :
    Nat → St → List (List Nat) × St × List Marker
  | 0, s => ([], s, [])
  | fuel + 1, s =>
    let key := _get_state_key (e.name ++ "_related")
    let last_seen_modified := stGet s key
    let entities := execEntityQuery table last_seen_modified
    if entities.isEmpty then ([], s, [])
    else
      let m := lastModified entities
      let r := _get_updated_related_entities_ids table e fuel (stSave s key m)
      ((entities.map Row.id) :: r.1, r.2.1, m :: r.2.2)

/-- `_get_filmworks_ids_with_related_entities(entity, entity_ids)`: Stage B
of the cascade, keyed by `"<entity>_filmwork"`.  Yields the film_work ids
of each page; on the empty page it resets its watermark to the epoch and
terminates. -/
def _get_filmworks_ids_with_related_entities (fwTable : List Row) (e : Entity)
    (entity_ids : List Nat) :
    Nat → St → List (List Nat) × St × List Marker
  | 0, s => ([], s, [])
  | fuel + 1, s =>
    let key := _get_state_key (e.name ++ "_filmwork")
    let last_seen_modified := stGet s key
    let filmworks := execCascadeQuery fwTable e entity_ids last_seen_modified
    if filmworks.isEmpty then ([], stReset s key, [])
    else
      let m := lastModified filmworks
      let r := _get_filmworks_ids_with_related_entities fwTable e entity_ids fuel
        (stSave s key m)
      ((filmworks.map Row.id) :: r.1, r.2.1, m :: r.2.2)

/-- `_get_filmworks_by_ids(filmwork_ids)`: build the by-id query and execute
it.  Rows already are the typed records in this model, so the pydantic
normalization step is the identity here (its fallible behaviour is modelled
separately by `_normalize`). -/
def _get_filmworks_by_ids (fwTable : List Row) (filmwork_ids : List Nat) : List Row :=
  ((_build_sql_requesting_filmworks (some filmwork_ids) none).map
    (execFwQuery fwTable)).getD []

/-- The inner `for filmwork_ids in _get_filmworks_ids_with_related_entities`
loop of `_get_filmorks_with_updated_related_entities`, iterated over the
Stage-A batches.  Stage A reads and writes only the `"<e>_related"` key and
Stage B only the `"<e>_filmwork"` key, so running Stage A to completion
first (as the state-passing translation below does) is observably identical
to the interleaved Python generators. -/
def stageB_all (fwTable : List Row) (e : Entity) :
    List (List Nat) → St → List (List Row) × St
  | [], s => ([], s)
  | entity_ids :: rest, s =>
    let r := _get_filmworks_ids_with_related_entities fwTable e entity_ids
      (fwTable.length + 1) s
    let outs := r.1.map (fun filmwork_ids => _get_filmworks_by_ids fwTable filmwork_ids)
    let r2 := stageB_all fwTable e rest r.2.1
    (outs ++ r2.1, r2.2)

/-- `_get_filmorks_with_updated_related_entities(entity)`: the full cascade
pipeline for one related kind — Stage A batches of changed related-entity
ids, each driving a Stage-B sub-stream of dependent film_work ids, each
page of which is fetched in full by id. -/
def _get_filmorks_with_updated_related_entities (db : DB) (e : Entity) (s : St) :
    List (List Row) × St :=
  let a := _get_updated_related_entities_ids (db.table e) e ((db.table e).length + 1) s
  stageB_all db.film_work e a.1 a.2.1

/-- `get_updated_filmworks()`: person-driven cascade, then genre-driven
cascade, then the film_work direct-change stream. -/
def get_updated_filmworks (db : DB) (s : St) : List (List Row) × St :=
  let a := _get_filmorks_with_updated_related_entities db .person s
  let b := _get_filmorks_with_updated_related_entities db .genre a.2
  let c := _get_updated_entity db .filmwork (db.film_work.length + 1) b.2
  (a.1 ++ b.1 ++ c.1, c.2.1)

/-- The fault taxonomy the error-handling code distinguishes:
`psycopg.errors.OperationalError`, `pydantic.ValidationError`, and any
other exception kind. -/
inductive Fault
  | operational
  | validation
  | other
deriving DecidableEq, Repr

/-- The configuration of the `backoff` decorator
(`start_sleep_time=0.1, factor=2, border_sleep_time=10,
attempts_threshold=50` by default); sleep durations are exact rationals. -/
structure BackoffCfg where
  start_sleep_time : ℚ := 1 / 10
  factor : ℕ := 2
  border_sleep_time : ℚ := 10
  attempts_threshold : ℕ := 50

/-- The default decorator configuration. -/
def defaultCfg : BackoffCfg := {}

/-- The duration `inner` sleeps when the attempt counter is `n`:
`time_to_sleep = start_sleep_time * factor ** n`, capped at
`border_sleep_time` (`time_to_sleep if time_to_sleep < border_sleep_time
else border_sleep_time`). -/
def sleepTime (cfg : BackoffCfg) (n : ℕ) : ℚ :=
  let time_to_sleep := cfg.start_sleep_time * (cfg.factor : ℚ) ^ n
  if time_to_sleep < cfg.border_sleep_time then time_to_sleep else cfg.border_sleep_time

/-- The `inner` loop of the `backoff` decorator.  The wrapped callable is
modelled by the outcome `f i` of its `i`-th invocation (0-indexed);
`n` is the attempt counter (starting at 1), `calls` the number of
invocations made so far, `sleeps` the accumulated sleep durations.
Returns (outcome, total invocations, sleep trace). -/
def backoffInner (cfg : BackoffCfg) (exceptions : List Fault)
    (f : ℕ → Except Fault α) (n calls : ℕ) (sleeps : List ℚ) :
    Except Fault α × ℕ × List ℚ :=
  match f calls with
  | .ok a => (.ok a, calls + 1, sleeps)
  | .error e =>
    if exceptions.contains e then
      if cfg.attempts_threshold < n then (.error e, calls + 1, sleeps)
      else backoffInner cfg exceptions f (n + 1) (calls + 1)
        (sleeps ++ [sleepTime cfg n])
    else (.error e, calls + 1, sleeps)
termination_by cfg.attempts_threshold + 1 - n

/-- Applying the `backoff`-decorated callable: run `inner` from `n = 1`
with no invocations made and no sleeps performed. -/
def backoffRun (cfg : BackoffCfg) (exceptions : List Fault)
    (f : ℕ → Except Fault α) : Except Fault α × ℕ × List ℚ :=
  backoffInner cfg exceptions f 1 0 []

/-- `_normalize(data, model)`: `[model.parse_obj(i) for i in data]`.  The
parse of each row either yields a typed record or raises; the comprehension
evaluates left to right and propagates the first raise, producing no
partial list. -/
def _normalize (parse : ρ → Except Fault β) : List ρ → Except Fault (List β)
  | [] => .ok []
  | r :: rest =>
    match parse r with
    | .error e => .error e
    | .ok b =>
      match _normalize parse rest with
      | .error e => .error e
      | .ok bs => .ok (b :: bs)

/-- `_db_execute(cmd)` as the call site sees it: the raw database call
wrapped by `backoff(exceptions=(OperationalError,))` with all other
decorator parameters left at their defaults. -/
def _db_execute (dbcall : ℕ → Except Fault σ) : Except Fault σ × ℕ × List ℚ :=
  backoffRun defaultCfg [Fault.operational] dbcall

/-- The `_normalize(_db_execute(cmd), model)` composition used by
`_get_filmworks_by_ids` and `_get_updated_entity`: fetch a page through the
retry wrapper, then normalize it outside the wrapper. -/
def fetchAndNormalize (dbcall : ℕ → Except Fault (List ρ))
    (parse : ρ → Except Fault β) : Except Fault (List β) × ℕ × List ℚ :=
  let r := _db_execute dbcall
  (r.1.bind (fun rows => _normalize parse rows), r.2.1, r.2.2)

/-- A filmwork referencing only person 101, its own marker not past the
filmwork watermark of `exSt` (see `exDb`). -/
def rowA : Row := { id := 1000, modified := 1, persons := [101] }

/-- Person 101: the last of 101 persons all sharing marker 1. -/
def rowR : Row := { id := 101, modified := 1 }

/-- A database in which 101 person rows all carry the same marker 1 (a tie
on `modified`), and one filmwork references only the 101st of them. -/
def exDb : DB :=
  { film_work := [rowA]
    person := (List.range 100).map (fun i => { id := i + 1, modified := 1 }) ++ [rowR]
    genre := [] }

/-- Initial watermark store for the tie counterexample: the filmwork
direct-change watermark is already at 5, everything else at the epoch. -/
def exSt : St := [("filmwork_last_seen_modified", 5)]

/-- A small database with one person (marker 1) referenced by one filmwork
(marker 1), used to witness the amended cascade-completeness theorem. -/
def okDb : DB :=
  { film_work := [rowA]
    person := [rowR]
    genre := [] }

/-- A person table of 100 rows with distinct markers 1..100, so that the
first direct-change page is exactly `_CHUNK_SIZE` rows long. -/
def fullDb : DB :=
  { film_work := []
    person := (List.range 100).map (fun i => { id := i + 1, modified := i + 1 })
    genre := [] }

/-- A person table of 3 rows with distinct markers, so that the first
direct-change page is shorter than `_CHUNK_SIZE`. -/
def shortDb : DB :=
  { film_work := []
    person := [{ id := 1, modified := 3 }, { id := 2, modified := 5 }]
    genre := [] }

/-- A concrete parse function used to witness the normalization theorems:
`none` models a raw row pydantic rejects, `some n` a row it accepts. -/
def exParse : Option Nat → Except Fault Nat
  | none => .error .validation
  | some n => .ok n

/-- A concrete fetched page containing one malformed row. -/
def exRows : List (Option Nat) := [some 1, none]

/-- A database call that succeeds immediately, returning `exRows`. -/
def exDbcall : ℕ → Except Fault (List (Option Nat)) := fun _ => .ok exRows

lemma stGet_stSave_self (s : St) (k : String) (m : Marker) :
    stGet (stSave s k m) k = m := by
  simp [stGet, stSave, List.find?]

lemma stGet_stSave_ne (s : St) (k k' : String) (m : Marker) (h : k' ≠ k) :
    stGet (stSave s k m) k' = stGet s k' := by
  have hb : (k == k') = false := by
    simp [beq_eq_false_iff_ne]
    exact fun hk => h hk.symm
  simp [stGet, stSave, List.find?, hb]

lemma stGet_stReset_self (s : St) (k : String) :
    stGet (stReset s k) k = epoch := by
  simp [stGet, stReset, List.find?]

lemma stGet_stReset_ne (s : St) (k k' : String) (h : k' ≠ k) :
    stGet (stReset s k) k' = stGet s k' := by
  have hb : (k == k') = false := by
    simp [beq_eq_false_iff_ne]
    exact fun hk => h hk.symm
  simp [stGet, stReset, List.find?, hb]

lemma chain'_le_of_chain_lt {x : Marker} {l : List Marker}
    (h : List.Chain (· < ·) x l) : List.Chain' (· ≤ ·) l := by
  cases l with
  | nil => trivial
  | cons y t =>
    have ht : List.Chain (· < ·) y t := (List.chain_cons.mp h).2
    exact List.Chain.imp (fun _ _ hh => le_of_lt hh) ht

lemma insertionSort_eq_nil_iff (l : List Row) :
    List.insertionSort byModified l = [] ↔ l = [] := by
  constructor
  · intro h
    have := (List.perm_insertionSort byModified l).length_eq
    rw [h] at this
    exact List.length_eq_zero.mp this.symm
  · intro h; rw [h]; rfl

lemma runQuery_eq_nil_iff (table : List Row) (p : Row → Bool) (wm : Marker) :
    runQuery table p wm = [] ↔ matching table p wm = [] := by
  unfold runQuery
  rw [List.take_eq_nil_iff, insertionSort_eq_nil_iff]
  simp [_CHUNK_SIZE]

lemma mem_matching {table : List Row} {p : Row → Bool} {wm : Marker} {r : Row} :
    r ∈ matching table p wm ↔ r ∈ table ∧ p r = true ∧ wm < r.modified := by
  unfold matching
  rw [List.mem_filter]
  simp

lemma mem_runQuery {table : List Row} {p : Row → Bool} {wm : Marker} {r : Row}
    (h : r ∈ runQuery table p wm) :
    r ∈ table ∧ p r = true ∧ wm < r.modified := by
  unfold runQuery at h
  have h1 : r ∈ List.insertionSort byModified (matching table p wm) :=
    (List.take_sublist _ _).mem h
  have h2 : r ∈ matching table p wm :=
    ((List.perm_insertionSort byModified _).mem_iff).mp h1
  exact mem_matching.mp h2

lemma sorted_runQuery (table : List Row) (p : Row → Bool) (wm : Marker) :
    List.Sorted byModified (runQuery table p wm) :=
  (List.sorted_insertionSort byModified (matching table p wm)).sublist
    (List.take_sublist _ _)

lemma lastModified_spec : ∀ (l : List Row), l ≠ [] →
    ∃ r ∈ l, lastModified l = r.modified := by
  intro l
  induction l with
  | nil => intro h; exact absurd rfl h
  | cons x t ih =>
    intro _
    cases t with
    | nil => exact ⟨x, List.mem_singleton.mpr rfl, rfl⟩
    | cons y u =>
      obtain ⟨r, hr, hm⟩ := ih (by simp)
      refine ⟨r, List.mem_cons_of_mem x hr, ?_⟩
      rw [← hm]
      simp [lastModified, List.getLast?_cons_cons]

lemma le_lastModified_of_sorted : ∀ {l : List Row}, List.Sorted byModified l →
    ∀ {r : Row}, r ∈ l → r.modified ≤ lastModified l := by
  intro l
  induction l with
  | nil => intro _ r hr; exact absurd hr (List.not_mem_nil r)
  | cons x t ih =>
    intro hs r hr
    cases t with
    | nil =>
      rw [List.mem_singleton.mp hr]
      exact le_refl _
    | cons y u =>
      have hlm : lastModified (x :: y :: u) = lastModified (y :: u) := by
        simp [lastModified, List.getLast?_cons_cons]
      rw [hlm]
      rcases List.mem_cons.mp hr with hx | ht
      · subst hx
        obtain ⟨w, hw, hwm⟩ := lastModified_spec (y :: u) (by simp)
        have hxw : byModified r w := (List.sorted_cons.mp hs).1 w hw
        rw [hwm]
        exact hxw
      · exact ih (List.sorted_cons.mp hs).2 ht

lemma wm_lt_lastModified {table : List Row} {p : Row → Bool} {wm : Marker}
    (h : runQuery table p wm ≠ []) : wm < lastModified (runQuery table p wm) := by
  obtain ⟨r, hr, hm⟩ := lastModified_spec _ h
  rw [hm]
  exact (mem_runQuery hr).2.2

lemma mem_matching_of_mem_runQuery {table : List Row} {p : Row → Bool}
    {wm : Marker} {r : Row} (h : r ∈ runQuery table p wm) :
    r ∈ matching table p wm := by
  have := mem_runQuery h
  exact mem_matching.mpr this

lemma matching_eq_nil_of_short {table : List Row} {p : Row → Bool} {wm : Marker}
    (hne : runQuery table p wm ≠ []) (hlen : (runQuery table p wm).length < _CHUNK_SIZE) :
    matching table p (lastModified (runQuery table p wm)) = [] := by
  have hwm : wm < lastModified (runQuery table p wm) := wm_lt_lastModified hne
  unfold matching
  rw [List.filter_eq_nil_iff]
  intro r hr hcontra
  rw [Bool.and_eq_true, decide_eq_true_eq] at hcontra
  obtain ⟨hp, hlt⟩ := hcontra
  have hrL : r ∈ matching table p wm :=
    mem_matching.mpr ⟨hr, hp, lt_trans hwm hlt⟩
  have hsortlen : (List.insertionSort byModified (matching table p wm)).length < _CHUNK_SIZE := by
    by_contra hge
    push_neg at hge
    have : (runQuery table p wm).length = _CHUNK_SIZE := by
      unfold runQuery
      rw [List.length_take]
      omega
    omega
  have hpageeq : runQuery table p wm = List.insertionSort byModified (matching table p wm) := by
    unfold runQuery
    exact List.take_of_length_le (le_of_lt hsortlen)
  have hrpage : r ∈ runQuery table p wm := by
    rw [hpageeq]
    exact ((List.perm_insertionSort byModified _).mem_iff).mpr hrL
  have hle : r.modified ≤ lastModified (runQuery table p wm) :=
    le_lastModified_of_sorted (sorted_runQuery table p wm) hrpage
  exact absurd hlt (not_lt.mpr hle)

lemma matching_length_lt_of_nonempty {table : List Row} {p : Row → Bool} {wm : Marker}
    (hne : runQuery table p wm ≠ []) :
    (matching table p (lastModified (runQuery table p wm))).length <
      (matching table p wm).length := by
  have hwm : wm < lastModified (runQuery table p wm) := wm_lt_lastModified hne
  have hstep : matching table p (lastModified (runQuery table p wm)) =
      (matching table p wm).filter
        (fun r => decide (lastModified (runQuery table p wm) < r.modified)) := by
    unfold matching
    rw [List.filter_filter]
    apply List.filter_congr
    intro r _
    cases hp : p r with
    | false => simp [hp]
    | true =>
      simp only [hp, Bool.true_and]
      by_cases h : lastModified (runQuery table p wm) < r.modified
      · simp [h, lt_trans hwm h]
      · simp [h]
  rw [hstep, List.length_filter_lt_length_iff_exists]
  obtain ⟨rl, hrl, hrlm⟩ := lastModified_spec _ hne
  refine ⟨rl, mem_matching_of_mem_runQuery hrl, ?_⟩
  rw [← hrlm]
  simp

lemma completeness_step {table : List Row} {p : Row → Bool} {wm : Marker} {r : Row}
    (hsort : table.Pairwise (fun a b : Row => a.modified < b.modified))
    (hr : r ∈ matching table p wm) :
    r ∈ runQuery table p wm ∨ lastModified (runQuery table p wm) < r.modified := by
  have hL : (matching table p wm).Pairwise (fun a b : Row => a.modified < b.modified) :=
    hsort.sublist (List.filter_sublist table)
  have hLsorted : List.Sorted byModified (matching table p wm) :=
    hL.imp (fun hh => le_of_lt hh)
  have hsorteq : List.insertionSort byModified (matching table p wm) = matching table p wm :=
    List.Sorted.insertionSort_eq hLsorted
  have hq : runQuery table p wm = (matching table p wm).take _CHUNK_SIZE := by
    unfold runQuery
    rw [hsorteq]
  have hsplit : (matching table p wm).take _CHUNK_SIZE ++
      (matching table p wm).drop _CHUNK_SIZE = matching table p wm :=
    List.take_append_drop _ _
  have hrsplit : r ∈ (matching table p wm).take _CHUNK_SIZE ++
      (matching table p wm).drop _CHUNK_SIZE := by rw [hsplit]; exact hr
  rcases List.mem_append.mp hrsplit with htake | hdrop
  · left; rw [hq]; exact htake
  · right
    have hpw : ((matching table p wm).take _CHUNK_SIZE ++
        (matching table p wm).drop _CHUNK_SIZE).Pairwise
          (fun a b : Row => a.modified < b.modified) := by
      rw [hsplit]; exact hL
    have hrel := (List.pairwise_append.mp hpw).2.2
    have hne : runQuery table p wm ≠ [] := by
      rw [hq]
      intro hnil
      rw [List.take_eq_nil_iff] at hnil
      rcases hnil with hc | hmn
      · simp [_CHUNK_SIZE] at hc
      · rw [hmn] at hr; exact List.not_mem_nil r hr
    obtain ⟨rl, hrl, hrlm⟩ := lastModified_spec _ hne
    rw [hrlm]
    have hrltake : rl ∈ (matching table p wm).take _CHUNK_SIZE := by
      rw [← hq]; exact hrl
    exact hrel rl hrltake r hdrop

lemma execEntityQuery_eq_runQuery (table : List Row) (wm : Marker) :
    execEntityQuery table wm = runQuery table (fun _ => true) wm := rfl

lemma gue_eq_nil (db : DB) (e : Entity) (s : St)
    (h : execEntityQuery (db.table e) (stGet s (_get_state_key e.name)) = []) :
    ∀ fuel, _get_updated_entity db e fuel s = ([], s, []) := by
  intro fuel
  cases fuel with
  | zero => rfl
  | succ n => simp [_get_updated_entity, h]

lemma gue_eq_cons (db : DB) (e : Entity) (s : St) (fuel : Nat)
    (h : execEntityQuery (db.table e) (stGet s (_get_state_key e.name)) ≠ []) :
    _get_updated_entity db e (fuel + 1) s =
      (execEntityQuery (db.table e) (stGet s (_get_state_key e.name)) ::
         (_get_updated_entity db e fuel (stSave s (_get_state_key e.name)
           (lastModified (execEntityQuery (db.table e)
             (stGet s (_get_state_key e.name)))))).1,
       (_get_updated_entity db e fuel (stSave s (_get_state_key e.name)
           (lastModified (execEntityQuery (db.table e)
             (stGet s (_get_state_key e.name)))))).2.1,
       lastModified (execEntityQuery (db.table e) (stGet s (_get_state_key e.name))) ::
         (_get_updated_entity db e fuel (stSave s (_get_state_key e.name)
           (lastModified (execEntityQuery (db.table e)
             (stGet s (_get_state_key e.name)))))).2.2) := by
  simp [_get_updated_entity, h]

lemma gue_mono (db : DB) (e : Entity) :
    ∀ (fuel : Nat) (s : St),
      List.Chain (· < ·) (stGet s (_get_state_key e.name))
        (_get_updated_entity db e fuel s).2.2 ∧
      (_get_updated_entity db e fuel s).2.2 =
        (_get_updated_entity db e fuel s).1.map lastModified ∧
      ∀ pg ∈ (_get_updated_entity db e fuel s).1, pg ≠ [] := by
  intro fuel
  induction fuel with
  | zero =>
    intro s
    exact ⟨List.Chain.nil, rfl, by intro pg hpg; exact absurd hpg (List.not_mem_nil pg)⟩
  | succ n ih =>
    intro s
    by_cases h : execEntityQuery (db.table e) (stGet s (_get_state_key e.name)) = []
    · rw [gue_eq_nil db e s h]
      exact ⟨List.Chain.nil, rfl, by intro pg hpg; exact absurd hpg (List.not_mem_nil pg)⟩
    · rw [gue_eq_cons db e s n h]
      have hwm : stGet s (_get_state_key e.name) <
          lastModified (execEntityQuery (db.table e) (stGet s (_get_state_key e.name))) := by
        rw [execEntityQuery_eq_runQuery] at h ⊢
        exact wm_lt_lastModified h
      obtain ⟨ihc, ihm, ihne⟩ :=
        ih (stSave s (_get_state_key e.name)
          (lastModified (execEntityQuery (db.table e) (stGet s (_get_state_key e.name)))))
      rw [stGet_stSave_self] at ihc
      refine ⟨List.chain_cons.mpr ⟨hwm, ihc⟩, ?_, ?_⟩
      · simp only [List.map_cons]
        rw [ihm]
      · intro pg hpg
        rcases List.mem_cons.mp hpg with hh | ht
        · rw [hh]; exact h
        · exact ihne pg ht

lemma gue_frame (db : DB) (e : Entity) :
    ∀ (fuel : Nat) (s : St) (k' : String), k' ≠ _get_state_key e.name →
      stGet ((_get_updated_entity db e fuel s).2.1) k' = stGet s k' := by
  intro fuel
  induction fuel with
  | zero => intro s k' _; rfl
  | succ n ih =>
    intro s k' hk
    by_cases h : execEntityQuery (db.table e) (stGet s (_get_state_key e.name)) = []
    · rw [gue_eq_nil db e s h]
    · rw [gue_eq_cons db e s n h]
      rw [ih _ k' hk, stGet_stSave_ne _ _ _ _ hk]

lemma gurei_eq_nil (table : List Row) (e : Entity) (s : St)
    (h : execEntityQuery table (stGet s (_get_state_key (e.name ++ "_related"))) = []) :
    ∀ fuel, _get_updated_related_entities_ids table e fuel s = ([], s, []) := by
  intro fuel
  cases fuel with
  | zero => rfl
  | succ n => simp [_get_updated_related_entities_ids, h]

lemma gurei_eq_cons (table : List Row) (e : Entity) (s : St) (fuel : Nat)
    (h : execEntityQuery table (stGet s (_get_state_key (e.name ++ "_related"))) ≠ []) :
    _get_updated_related_entities_ids table e (fuel + 1) s =
      ((execEntityQuery table (stGet s (_get_state_key (e.name ++ "_related")))).map Row.id ::
         (_get_updated_related_entities_ids table e fuel
           (stSave s (_get_state_key (e.name ++ "_related"))
             (lastModified (execEntityQuery table
               (stGet s (_get_state_key (e.name ++ "_related"))))))).1,
       (_get_updated_related_entities_ids table e fuel
           (stSave s (_get_state_key (e.name ++ "_related"))
             (lastModified (execEntityQuery table
               (stGet s (_get_state_key (e.name ++ "_related"))))))).2.1,
       lastModified (execEntityQuery table
           (stGet s (_get_state_key (e.name ++ "_related")))) ::
         (_get_updated_related_entities_ids table e fuel
           (stSave s (_get_state_key (e.name ++ "_related"))
             (lastModified (execEntityQuery table
               (stGet s (_get_state_key (e.name ++ "_related"))))))).2.2) := by
  simp [_get_updated_related_entities_ids, h]

lemma gurei_mono (table : List Row) (e : Entity) :
    ∀ (fuel : Nat) (s : St),
      List.Chain (· < ·) (stGet s (_get_state_key (e.name ++ "_related")))
        (_get_updated_related_entities_ids table e fuel s).2.2 ∧
      (_get_updated_related_entities_ids table e fuel s).2.2.length =
        (_get_updated_related_entities_ids table e fuel s).1.length ∧
      ∀ pg ∈ (_get_updated_related_entities_ids table e fuel s).1, pg ≠ [] := by
  intro fuel
  induction fuel with
  | zero =>
    intro s
    exact ⟨List.Chain.nil, rfl, by intro pg hpg; exact absurd hpg (List.not_mem_nil pg)⟩
  | succ n ih =>
    intro s
    by_cases h : execEntityQuery table (stGet s (_get_state_key (e.name ++ "_related"))) = []
    · rw [gurei_eq_nil table e s h]
      exact ⟨List.Chain.nil, rfl, by intro pg hpg; exact absurd hpg (List.not_mem_nil pg)⟩
    · rw [gurei_eq_cons table e s n h]
      have hwm : stGet s (_get_state_key (e.name ++ "_related")) <
          lastModified (execEntityQuery table
            (stGet s (_get_state_key (e.name ++ "_related")))) := by
        rw [execEntityQuery_eq_runQuery] at h ⊢
        exact wm_lt_lastModified h
      obtain ⟨ihc, ihm, ihne⟩ :=
        ih (stSave s (_get_state_key (e.name ++ "_related"))
          (lastModified (execEntityQuery table
            (stGet s (_get_state_key (e.name ++ "_related"))))))
      rw [stGet_stSave_self] at ihc
      refine ⟨List.chain_cons.mpr ⟨hwm, ihc⟩, ?_, ?_⟩
      · simp only [List.length_cons]
        rw [ihm]
      · intro pg hpg
        rcases List.mem_cons.mp hpg with hh | ht
        · rw [hh]
          simp only [ne_eq, List.map_eq_nil_iff]
          exact h
        · exact ihne pg ht

lemma gurei_frame (table : List Row) (e : Entity) :
    ∀ (fuel : Nat) (s : St) (k' : String), k' ≠ _get_state_key (e.name ++ "_related") →
      stGet ((_get_updated_related_entities_ids table e fuel s).2.1) k' = stGet s k' := by
  intro fuel
  induction fuel with
  | zero => intro s k' _; rfl
  | succ n ih =>
    intro s k' hk
    by_cases h : execEntityQuery table (stGet s (_get_state_key (e.name ++ "_related"))) = []
    · rw [gurei_eq_nil table e s h]
    · rw [gurei_eq_cons table e s n h]
      rw [ih _ k' hk, stGet_stSave_ne _ _ _ _ hk]

lemma gurei_exhaust (table : List Row) (e : Entity) :
    ∀ (fuel : Nat) (s : St),
      (matching table (fun _ => true)
        (stGet s (_get_state_key (e.name ++ "_related")))).length < fuel →
      matching table (fun _ => true)
        (stGet ((_get_updated_related_entities_ids table e fuel s).2.1)
          (_get_state_key (e.name ++ "_related"))) = [] := by
  intro fuel
  induction fuel with
  | zero => intro s hf; omega
  | succ n ih =>
    intro s hf
    by_cases h : execEntityQuery table (stGet s (_get_state_key (e.name ++ "_related"))) = []
    · rw [gurei_eq_nil table e s h]
      rw [execEntityQuery_eq_runQuery, runQuery_eq_nil_iff] at h
      exact h
    · rw [gurei_eq_cons table e s n h]
      apply ih
      rw [stGet_stSave_self]
      have hdec := @matching_length_lt_of_nonempty table (fun _ => true)
        (stGet s (_get_state_key (e.name ++ "_related")))
        (by rw [execEntityQuery_eq_runQuery] at h; exact h)
      rw [execEntityQuery_eq_runQuery]
      omega

lemma gurei_complete (table : List Row) (e : Entity)
    (hsort : table.Pairwise (fun a b : Row => a.modified < b.modified)) :
    ∀ (fuel : Nat) (s : St) (r : Row), r ∈ table →
      stGet s (_get_state_key (e.name ++ "_related")) < r.modified →
      (matching table (fun _ => true)
        (stGet s (_get_state_key (e.name ++ "_related")))).length < fuel →
      ∃ batch ∈ (_get_updated_related_entities_ids table e fuel s).1, r.id ∈ batch := by
  intro fuel
  induction fuel with
  | zero => intro s r _ _ hf; omega
  | succ n ih =>
    intro s r hr hwm hf
    have hrm : r ∈ matching table (fun _ => true)
        (stGet s (_get_state_key (e.name ++ "_related"))) :=
      mem_matching.mpr ⟨hr, rfl, hwm⟩
    have h : execEntityQuery table (stGet s (_get_state_key (e.name ++ "_related"))) ≠ [] := by
      rw [execEntityQuery_eq_runQuery]
      intro hnil
      rw [runQuery_eq_nil_iff] at hnil
      rw [hnil] at hrm
      exact List.not_mem_nil r hrm
    rw [gurei_eq_cons table e s n h]
    rcases completeness_step hsort hrm with hin | hafter
    · refine ⟨(execEntityQuery table
        (stGet s (_get_state_key (e.name ++ "_related")))).map Row.id,
        List.mem_cons_self _ _, ?_⟩
      rw [execEntityQuery_eq_runQuery]
      exact List.mem_map_of_mem Row.id hin
    · have hdec := @matching_length_lt_of_nonempty table (fun _ => true)
        (stGet s (_get_state_key (e.name ++ "_related")))
        (by rw [execEntityQuery_eq_runQuery] at h; exact h)
      obtain ⟨batch, hb, hrb⟩ := ih
        (stSave s (_get_state_key (e.name ++ "_related"))
          (lastModified (execEntityQuery table
            (stGet s (_get_state_key (e.name ++ "_related")))))) r hr
        (by rw [stGet_stSave_self, execEntityQuery_eq_runQuery]; exact hafter)
        (by rw [stGet_stSave_self, execEntityQuery_eq_runQuery]; omega)
      exact ⟨batch, List.mem_cons_of_mem _ hb, hrb⟩

lemma execCascadeQuery_eq_runQuery (fwTable : List Row) (e : Entity)
    (entity_ids : List Nat) (wm : Marker) :
    execCascadeQuery fwTable e entity_ids wm =
      runQuery fwTable (fun f => (f.refs e).any (fun i => entity_ids.contains i)) wm := rfl

lemma gfwi_eq_nil (fwTable : List Row) (e : Entity) (entity_ids : List Nat) (s : St)
    (h : execCascadeQuery fwTable e entity_ids
      (stGet s (_get_state_key (e.name ++ "_filmwork"))) = []) :
    ∀ fuel, _get_filmworks_ids_with_related_entities fwTable e entity_ids (fuel + 1) s =
      ([], stReset s (_get_state_key (e.name ++ "_filmwork")), []) := by
  intro fuel
  simp [_get_filmworks_ids_with_related_entities, h]

lemma gfwi_eq_cons (fwTable : List Row) (e : Entity) (entity_ids : List Nat) (s : St)
    (fuel : Nat)
    (h : execCascadeQuery fwTable e entity_ids
      (stGet s (_get_state_key (e.name ++ "_filmwork"))) ≠ []) :
    _get_filmworks_ids_with_related_entities fwTable e entity_ids (fuel + 1) s =
      ((execCascadeQuery fwTable e entity_ids
          (stGet s (_get_state_key (e.name ++ "_filmwork")))).map Row.id ::
         (_get_filmworks_ids_with_related_entities fwTable e entity_ids fuel
           (stSave s (_get_state_key (e.name ++ "_filmwork"))
             (lastModified (execCascadeQuery fwTable e entity_ids
               (stGet s (_get_state_key (e.name ++ "_filmwork"))))))).1,
       (_get_filmworks_ids_with_related_entities fwTable e entity_ids fuel
           (stSave s (_get_state_key (e.name ++ "_filmwork"))
             (lastModified (execCascadeQuery fwTable e entity_ids
               (stGet s (_get_state_key (e.name ++ "_filmwork"))))))).2.1,
       lastModified (execCascadeQuery fwTable e entity_ids
           (stGet s (_get_state_key (e.name ++ "_filmwork")))) ::
         (_get_filmworks_ids_with_related_entities fwTable e entity_ids fuel
           (stSave s (_get_state_key (e.name ++ "_filmwork"))
             (lastModified (execCascadeQuery fwTable e entity_ids
               (stGet s (_get_state_key (e.name ++ "_filmwork"))))))).2.2) := by
  simp [_get_filmworks_ids_with_related_entities, h]

lemma gfwi_mono (fwTable : List Row) (e : Entity) (entity_ids : List Nat) :
    ∀ (fuel : Nat) (s : St),
      List.Chain (· < ·) (stGet s (_get_state_key (e.name ++ "_filmwork")))
        (_get_filmworks_ids_with_related_entities fwTable e entity_ids fuel s).2.2 ∧
      (_get_filmworks_ids_with_related_entities fwTable e entity_ids fuel s).2.2.length =
        (_get_filmworks_ids_with_related_entities fwTable e entity_ids fuel s).1.length ∧
      ∀ pg ∈ (_get_filmworks_ids_with_related_entities fwTable e entity_ids fuel s).1,
        pg ≠ [] := by
  intro fuel
  induction fuel with
  | zero =>
    intro s
    exact ⟨List.Chain.nil, rfl, by intro pg hpg; exact absurd hpg (List.not_mem_nil pg)⟩
  | succ n ih =>
    intro s
    by_cases h : execCascadeQuery fwTable e entity_ids
        (stGet s (_get_state_key (e.name ++ "_filmwork"))) = []
    · rw [gfwi_eq_nil fwTable e entity_ids s h]
      exact ⟨List.Chain.nil, rfl, by intro pg hpg; exact absurd hpg (List.not_mem_nil pg)⟩
    · rw [gfwi_eq_cons fwTable e entity_ids s n h]
      have hwm : stGet s (_get_state_key (e.name ++ "_filmwork")) <
          lastModified (execCascadeQuery fwTable e entity_ids
            (stGet s (_get_state_key (e.name ++ "_filmwork")))) := by
        rw [execCascadeQuery_eq_runQuery] at h ⊢
        exact wm_lt_lastModified h
      obtain ⟨ihc, ihm, ihne⟩ :=
        ih (stSave s (_get_state_key (e.name ++ "_filmwork"))
          (lastModified (execCascadeQuery fwTable e entity_ids
            (stGet s (_get_state_key (e.name ++ "_filmwork"))))))
      rw [stGet_stSave_self] at ihc
      refine ⟨List.chain_cons.mpr ⟨hwm, ihc⟩, ?_, ?_⟩
      · simp only [List.length_cons]
        rw [ihm]
      · intro pg hpg
        rcases List.mem_cons.mp hpg with hh | ht
        · rw [hh]
          simp only [ne_eq, List.map_eq_nil_iff]
          exact h
        · exact ihne pg ht

lemma gfwi_frame (fwTable : List Row) (e : Entity) (entity_ids : List Nat) :
    ∀ (fuel : Nat) (s : St) (k' : String), k' ≠ _get_state_key (e.name ++ "_filmwork") →
      stGet ((_get_filmworks_ids_with_related_entities fwTable e entity_ids fuel s).2.1) k' =
        stGet s k' := by
  intro fuel
  induction fuel with
  | zero => intro s k' _; rfl
  | succ n ih =>
    intro s k' hk
    by_cases h : execCascadeQuery fwTable e entity_ids
        (stGet s (_get_state_key (e.name ++ "_filmwork"))) = []
    · rw [gfwi_eq_nil fwTable e entity_ids s h]
      exact stGet_stReset_ne _ _ _ hk
    · rw [gfwi_eq_cons fwTable e entity_ids s n h]
      rw [ih _ k' hk, stGet_stSave_ne _ _ _ _ hk]

lemma gfwi_reset (fwTable : List Row) (e : Entity) (entity_ids : List Nat) :
    ∀ (fuel : Nat) (s : St),
      (matching fwTable (fun f => (f.refs e).any (fun i => entity_ids.contains i))
        (stGet s (_get_state_key (e.name ++ "_filmwork")))).length < fuel →
      stGet ((_get_filmworks_ids_with_related_entities fwTable e entity_ids fuel s).2.1)
        (_get_state_key (e.name ++ "_filmwork")) = epoch := by
  intro fuel
  induction fuel with
  | zero => intro s hf; omega
  | succ n ih =>
    intro s hf
    by_cases h : execCascadeQuery fwTable e entity_ids
        (stGet s (_get_state_key (e.name ++ "_filmwork"))) = []
    · rw [gfwi_eq_nil fwTable e entity_ids s h]
      exact stGet_stReset_self _ _
    · rw [gfwi_eq_cons fwTable e entity_ids s n h]
      apply ih
      rw [stGet_stSave_self]
      have hdec := @matching_length_lt_of_nonempty fwTable
        (fun f => (f.refs e).any (fun i => entity_ids.contains i))
        (stGet s (_get_state_key (e.name ++ "_filmwork")))
        (by rw [execCascadeQuery_eq_runQuery] at h; exact h)
      rw [execCascadeQuery_eq_runQuery]
      omega

lemma gfwi_complete (fwTable : List Row) (e : Entity) (entity_ids : List Nat)
    (hsort : fwTable.Pairwise (fun a b : Row => a.modified < b.modified)) :
    ∀ (fuel : Nat) (s : St) (r : Row), r ∈ fwTable →
      ((r.refs e).any (fun i => entity_ids.contains i)) = true →
      stGet s (_get_state_key (e.name ++ "_filmwork")) < r.modified →
      (matching fwTable (fun f => (f.refs e).any (fun i => entity_ids.contains i))
        (stGet s (_get_state_key (e.name ++ "_filmwork")))).length < fuel →
      ∃ batch ∈ (_get_filmworks_ids_with_related_entities fwTable e entity_ids fuel s).1,
        r.id ∈ batch := by
  intro fuel
  induction fuel with
  | zero => intro s r _ _ _ hf; omega
  | succ n ih =>
    intro s r hr hp hwm hf
    have hrm : r ∈ matching fwTable
        (fun f => (f.refs e).any (fun i => entity_ids.contains i))
        (stGet s (_get_state_key (e.name ++ "_filmwork"))) :=
      mem_matching.mpr ⟨hr, hp, hwm⟩
    have h : execCascadeQuery fwTable e entity_ids
        (stGet s (_get_state_key (e.name ++ "_filmwork"))) ≠ [] := by
      rw [execCascadeQuery_eq_runQuery]
      intro hnil
      rw [runQuery_eq_nil_iff] at hnil
      rw [hnil] at hrm
      exact List.not_mem_nil r hrm
    rw [gfwi_eq_cons fwTable e entity_ids s n h]
    rcases completeness_step hsort hrm with hin | hafter
    · refine ⟨(execCascadeQuery fwTable e entity_ids
        (stGet s (_get_state_key (e.name ++ "_filmwork")))).map Row.id,
        List.mem_cons_self _ _, ?_⟩
      rw [execCascadeQuery_eq_runQuery]
      exact List.mem_map_of_mem Row.id hin
    · have hdec := @matching_length_lt_of_nonempty fwTable
        (fun f => (f.refs e).any (fun i => entity_ids.contains i))
        (stGet s (_get_state_key (e.name ++ "_filmwork")))
        (by rw [execCascadeQuery_eq_runQuery] at h; exact h)
      obtain ⟨batch, hb, hrb⟩ := ih
        (stSave s (_get_state_key (e.name ++ "_filmwork"))
          (lastModified (execCascadeQuery fwTable e entity_ids
            (stGet s (_get_state_key (e.name ++ "_filmwork")))))) r hr hp
        (by rw [stGet_stSave_self, execCascadeQuery_eq_runQuery]; exact hafter)
        (by rw [stGet_stSave_self, execCascadeQuery_eq_runQuery]; omega)
      exact ⟨batch, List.mem_cons_of_mem _ hb, hrb⟩

lemma keyRel_ne_keyFw (e : Entity) :
    _get_state_key (e.name ++ "_related") ≠ _get_state_key (e.name ++ "_filmwork") := by
  cases e <;> decide

lemma mem_get_filmworks_by_ids {fwTable : List Row} {ids : List Nat} {A : Row}
    (hA : A ∈ fwTable) (hid : A.id ∈ ids) :
    A ∈ _get_filmworks_by_ids fwTable ids := by
  cases ids with
  | nil => exact absurd hid (List.not_mem_nil _)
  | cons i rest =>
    show A ∈ ((_build_sql_requesting_filmworks (some (i :: rest)) none).map
      (execFwQuery fwTable)).getD []
    simp only [_build_sql_requesting_filmworks, Option.map_some', Option.getD_some]
    show A ∈ execByIdsQuery fwTable (i :: rest)
    unfold execByIdsQuery
    rw [(List.perm_insertionSort byModified _).mem_iff]
    rw [List.mem_filter]
    refine ⟨hA, ?_⟩
    exact List.elem_eq_true_of_mem hid

lemma stageB_frame (fwTable : List Row) (e : Entity) :
    ∀ (batches : List (List Nat)) (s : St) (k' : String),
      k' ≠ _get_state_key (e.name ++ "_filmwork") →
      stGet ((stageB_all fwTable e batches s).2) k' = stGet s k' := by
  intro batches
  induction batches with
  | nil => intro s k' _; rfl
  | cons b rest ih =>
    intro s k' hk
    show stGet ((stageB_all fwTable e rest
      (_get_filmworks_ids_with_related_entities fwTable e b
        (fwTable.length + 1) s).2.1).2) k' = stGet s k'
    rw [ih _ k' hk, gfwi_frame fwTable e b _ s k' hk]

lemma stageB_complete (fwTable : List Row) (e : Entity)
    (hsort : fwTable.Pairwise (fun a b : Row => a.modified < b.modified)) :
    ∀ (batches : List (List Nat)) (s : St) (A : Row) (rid : Nat),
      A ∈ fwTable → rid ∈ A.refs e → epoch < A.modified →
      stGet s (_get_state_key (e.name ++ "_filmwork")) = epoch →
      (∃ b ∈ batches, rid ∈ b) →
      ∃ out ∈ (stageB_all fwTable e batches s).1, A ∈ out := by
  intro batches
  induction batches with
  | nil =>
    intro s A rid _ _ _ _ hex
    obtain ⟨b, hb, _⟩ := hex
    exact absurd hb (List.not_mem_nil b)
  | cons b rest ih =>
    intro s A rid hA href hpos hkey hex
    have hmeas : (matching fwTable
        (fun f => (f.refs e).any (fun i => b.contains i))
        (stGet s (_get_state_key (e.name ++ "_filmwork")))).length < fwTable.length + 1 :=
      Nat.lt_succ_of_le (List.length_filter_le _ _)
    rcases hex with ⟨b', hb', hrid⟩
    rcases List.mem_cons.mp hb' with hbb | hbrest
    · subst hbb
      have hp : ((A.refs e).any (fun i => b'.contains i)) = true := by
        rw [List.any_eq_true]
        refine ⟨rid, href, ?_⟩
        exact List.elem_eq_true_of_mem hrid
      obtain ⟨batch, hbatch, hAid⟩ := gfwi_complete fwTable e b' hsort
        (fwTable.length + 1) s A hA hp (by rw [hkey]; exact hpos) hmeas
      refine ⟨_get_filmworks_by_ids fwTable batch, ?_, ?_⟩
      · show _ ∈ (stageB_all fwTable e (b' :: rest) s).1
        show _ ∈ ((_get_filmworks_ids_with_related_entities fwTable e b'
            (fwTable.length + 1) s).1.map
              (fun filmwork_ids => _get_filmworks_by_ids fwTable filmwork_ids)) ++
          (stageB_all fwTable e rest
            (_get_filmworks_ids_with_related_entities fwTable e b'
              (fwTable.length + 1) s).2.1).1
        exact List.mem_append_left _
          (List.mem_map_of_mem (fun ids => _get_filmworks_by_ids fwTable ids) hbatch)
      · exact mem_get_filmworks_by_ids hA hAid
    · have hkey2 : stGet ((_get_filmworks_ids_with_related_entities fwTable e b
          (fwTable.length + 1) s).2.1) (_get_state_key (e.name ++ "_filmwork")) = epoch :=
        gfwi_reset fwTable e b (fwTable.length + 1) s hmeas
      obtain ⟨out, hout, hAout⟩ := ih
        (_get_filmworks_ids_with_related_entities fwTable e b
          (fwTable.length + 1) s).2.1 A rid hA href hpos hkey2 ⟨b', hbrest, hrid⟩
      refine ⟨out, ?_, hAout⟩
      show _ ∈ (stageB_all fwTable e (b :: rest) s).1
      show _ ∈ ((_get_filmworks_ids_with_related_entities fwTable e b
          (fwTable.length + 1) s).1.map
            (fun filmwork_ids => _get_filmworks_by_ids fwTable filmwork_ids)) ++
        (stageB_all fwTable e rest
          (_get_filmworks_ids_with_related_entities fwTable e b
            (fwTable.length + 1) s).2.1).1
      exact List.mem_append_right _ hout

lemma cascade_frame (db : DB) (e : Entity) (s : St) (k' : String)
    (h1 : k' ≠ _get_state_key (e.name ++ "_related"))
    (h2 : k' ≠ _get_state_key (e.name ++ "_filmwork")) :
    stGet ((_get_filmorks_with_updated_related_entities db e s).2) k' = stGet s k' := by
  show stGet ((stageB_all db.film_work e
    (_get_updated_related_entities_ids (db.table e) e ((db.table e).length + 1) s).1
    (_get_updated_related_entities_ids (db.table e) e ((db.table e).length + 1) s).2.1).2) k' =
    stGet s k'
  rw [stageB_frame db.film_work e _ _ k' h2,
    gurei_frame (db.table e) e ((db.table e).length + 1) s k' h1]

lemma cascade_complete (db : DB) (e : Entity) (s : St) (r A : Row)
    (hsortT : (db.table e).Pairwise (fun a b : Row => a.modified < b.modified))
    (hsortF : db.film_work.Pairwise (fun a b : Row => a.modified < b.modified))
    (hr : r ∈ db.table e) (hA : A ∈ db.film_work) (href : r.id ∈ A.refs e)
    (hwmR : stGet s (_get_state_key (e.name ++ "_related")) < r.modified)
    (hwmF : stGet s (_get_state_key (e.name ++ "_filmwork")) = epoch)
    (hApos : epoch < A.modified) :
    ∃ out ∈ (_get_filmorks_with_updated_related_entities db e s).1, A ∈ out := by
  have hmeas : (matching (db.table e) (fun _ => true)
      (stGet s (_get_state_key (e.name ++ "_related")))).length < (db.table e).length + 1 :=
    Nat.lt_succ_of_le (List.length_filter_le _ _)
  obtain ⟨batch, hbatch, hrid⟩ := gurei_complete (db.table e) e hsortT
    ((db.table e).length + 1) s r hr hwmR hmeas
  have hkeyB : stGet ((_get_updated_related_entities_ids (db.table e) e
      ((db.table e).length + 1) s).2.1) (_get_state_key (e.name ++ "_filmwork")) = epoch := by
    rw [gurei_frame (db.table e) e ((db.table e).length + 1) s _
      (keyRel_ne_keyFw e).symm]
    exact hwmF
  exact stageB_complete db.film_work e hsortF
    (_get_updated_related_entities_ids (db.table e) e ((db.table e).length + 1) s).1
    (_get_updated_related_entities_ids (db.table e) e ((db.table e).length + 1) s).2.1
    A r.id hA href hApos hkeyB ⟨batch, hbatch, hrid⟩

lemma backoffInner_ok {α : Type} (cfg : BackoffCfg) (exceptions : List Fault)
    (f : ℕ → Except Fault α) (n calls : ℕ) (sleeps : List ℚ) (a : α)
    (h : f calls = .ok a) :
    backoffInner cfg exceptions f n calls sleeps = (.ok a, calls + 1, sleeps) := by
  unfold backoffInner
  rw [h]

lemma backoffInner_nonretry {α : Type} (cfg : BackoffCfg) (exceptions : List Fault)
    (f : ℕ → Except Fault α) (n calls : ℕ) (sleeps : List ℚ) (e : Fault)
    (h : f calls = .error e) (hne : exceptions.contains e = false) :
    backoffInner cfg exceptions f n calls sleeps = (.error e, calls + 1, sleeps) := by
  have hne' : e ∉ exceptions := by simpa using hne
  unfold backoffInner
  rw [h]
  simp [hne']

lemma backoffInner_raise {α : Type} (cfg : BackoffCfg) (exceptions : List Fault)
    (f : ℕ → Except Fault α) (n calls : ℕ) (sleeps : List ℚ) (e : Fault)
    (h : f calls = .error e) ( _hmem : exceptions.contains e = true)
    (hgt : cfg.attempts_threshold < n) :
    backoffInner cfg exceptions f n calls sleeps = (.error e, calls + 1, sleeps) := by
  unfold backoffInner
  rw [h]
  simp [hgt]

lemma backoffInner_retry {α : Type} (cfg : BackoffCfg) (exceptions : List Fault)
    (f : ℕ → Except Fault α) (n calls : ℕ) (sleeps : List ℚ) (e : Fault)
    (h : f calls = .error e) (hmem : exceptions.contains e = true)
    (hle : ¬ cfg.attempts_threshold < n) :
    backoffInner cfg exceptions f n calls sleeps =
      backoffInner cfg exceptions f (n + 1) (calls + 1) (sleeps ++ [sleepTime cfg n]) := by
  have hmem' : e ∈ exceptions := by simpa using hmem
  conv_lhs => rw [backoffInner]
  rw [h]
  simp [hmem', hle]

lemma backoffInner_all_fail {α : Type} (cfg : BackoffCfg) (exceptions : List Fault)
    (fault : Fault) (f : ℕ → Except Fault α)
    (hmem : exceptions.contains fault = true)
    (hall : ∀ i, f i = .error fault) :
    ∀ (k n calls : ℕ) (sleeps : List ℚ),
      cfg.attempts_threshold + 1 - n = k → n ≤ cfg.attempts_threshold + 1 →
      backoffInner cfg exceptions f n calls sleeps =
        (.error fault, calls + (cfg.attempts_threshold + 2 - n),
         sleeps ++ (List.range' n (cfg.attempts_threshold + 1 - n)).map (sleepTime cfg)) := by
  intro k
  induction k with
  | zero =>
    intro n calls sleeps hk hn
    rw [backoffInner_raise cfg exceptions f n calls sleeps fault (hall calls) hmem (by omega)]
    have h2 : cfg.attempts_threshold + 2 - n = 1 := by omega
    have h3 : cfg.attempts_threshold + 1 - n = 0 := by omega
    rw [h2, h3]
    simp
  | succ m ih =>
    intro n calls sleeps hk hn
    rw [backoffInner_retry cfg exceptions f n calls sleeps fault (hall calls) hmem (by omega)]
    rw [ih (n + 1) (calls + 1) (sleeps ++ [sleepTime cfg n]) (by omega) (by omega)]
    have hd : cfg.attempts_threshold + 1 - n = (cfg.attempts_threshold + 1 - (n + 1)) + 1 := by
      omega
    rw [hd, List.range'_succ, List.map_cons]
    have hc : calls + 1 + (cfg.attempts_threshold + 2 - (n + 1)) =
        calls + (cfg.attempts_threshold + 2 - n) := by omega
    rw [hc, List.append_assoc]
    rfl

lemma backoffInner_sleep_shape {α : Type} (cfg : BackoffCfg) (exceptions : List Fault)
    (f : ℕ → Except Fault α) :
    ∀ (k n calls : ℕ) (sleeps : List ℚ),
      cfg.attempts_threshold + 1 - n = k →
      ∃ j, (backoffInner cfg exceptions f n calls sleeps).2.2 =
        sleeps ++ (List.range' n j).map (sleepTime cfg) := by
  intro k
  induction k with
  | zero =>
    intro n calls sleeps hk
    cases hf : f calls with
    | ok a =>
      rw [backoffInner_ok cfg exceptions f n calls sleeps a hf]
      exact ⟨0, by simp⟩
    | error e =>
      cases hmem : exceptions.contains e with
      | false =>
        rw [backoffInner_nonretry cfg exceptions f n calls sleeps e hf hmem]
        exact ⟨0, by simp⟩
      | true =>
        rw [backoffInner_raise cfg exceptions f n calls sleeps e hf hmem (by omega)]
        exact ⟨0, by simp⟩
  | succ m ih =>
    intro n calls sleeps hk
    cases hf : f calls with
    | ok a =>
      rw [backoffInner_ok cfg exceptions f n calls sleeps a hf]
      exact ⟨0, by simp⟩
    | error e =>
      cases hmem : exceptions.contains e with
      | false =>
        rw [backoffInner_nonretry cfg exceptions f n calls sleeps e hf hmem]
        exact ⟨0, by simp⟩
      | true =>
        rw [backoffInner_retry cfg exceptions f n calls sleeps e hf hmem (by omega)]
        obtain ⟨j, hj⟩ := ih (n + 1) (calls + 1) (sleeps ++ [sleepTime cfg n]) (by omega)
        refine ⟨j + 1, ?_⟩
        rw [hj, List.range'_succ, List.map_cons, List.append_assoc]
        rfl

lemma normalize_error_of_mem {ρ β : Type} (parse : ρ → Except Fault β) :
    ∀ (data : List ρ) (r : ρ) (e : Fault), r ∈ data → parse r = .error e →
      ∃ e', _normalize parse data = .error e' := by
  intro data
  induction data with
  | nil => intro r e hr _; exact absurd hr (List.not_mem_nil r)
  | cons x rest ih =>
    intro r e hr hp
    rcases List.mem_cons.mp hr with hx | hrest
    · subst hx
      exact ⟨e, by simp [_normalize, hp]⟩
    · cases hx : parse x with
      | error e0 => exact ⟨e0, by simp [_normalize, hx]⟩
      | ok b =>
        obtain ⟨e', he'⟩ := ih r e hrest hp
        exact ⟨e', by simp [_normalize, hx, he']⟩

lemma normalize_error_source {ρ β : Type} (parse : ρ → Except Fault β) :
    ∀ (data : List ρ) (e : Fault), _normalize parse data = .error e →
      ∃ r ∈ data, parse r = .error e := by
  intro data
  induction data with
  | nil => intro e he; exact absurd he (by simp [_normalize])
  | cons x rest ih =>
    intro e he
    cases hx : parse x with
    | error e0 =>
      rw [_normalize, hx] at he
      injection he with he0
      exact ⟨x, List.mem_cons_self _ _, by rw [hx, he0]⟩
    | ok b =>
      rw [_normalize, hx] at he
      cases hrest : _normalize parse rest with
      | error e1 =>
        rw [hrest] at he
        injection he with he1
        obtain ⟨r, hr, hpr⟩ := ih e1 hrest
        exact ⟨r, List.mem_cons_of_mem _ hr, by rw [hpr, he1]⟩
      | ok bs => rw [hrest] at he; cases he

/-- C2: Watermark monotonicity.  The modelled executor returns pages sorted
ascending by `modified` with every row strictly past the interpolated
watermark; under that semantics each of the three reader loops
(`_get_updated_entity`, `_get_updated_related_entities_ids`,
`_get_filmworks_ids_with_related_entities`) produces a non-decreasing
sequence of markers through `state.save`, with exactly one save per
emitted page (the save happens in the same iteration, before the yield)
and only non-empty pages emitted. -/
theorem watermark_monotonicity :
    (∀ (table : List Row) (p : Row → Bool) (wm : Marker),
       List.Sorted byModified (runQuery table p wm) ∧
       ∀ r ∈ runQuery table p wm, wm < r.modified) ∧
    (∀ (db : DB) (e : Entity) (fuel : Nat) (s : St),
       List.Chain' (· ≤ ·) (_get_updated_entity db e fuel s).2.2 ∧
       (_get_updated_entity db e fuel s).2.2 =
         (_get_updated_entity db e fuel s).1.map lastModified ∧
       ∀ pg ∈ (_get_updated_entity db e fuel s).1, pg ≠ []) ∧
    (∀ (table : List Row) (e : Entity) (fuel : Nat) (s : St),
       List.Chain' (· ≤ ·) (_get_updated_related_entities_ids table e fuel s).2.2 ∧
       (_get_updated_related_entities_ids table e fuel s).2.2.length =
         (_get_updated_related_entities_ids table e fuel s).1.length ∧
       ∀ pg ∈ (_get_updated_related_entities_ids table e fuel s).1, pg ≠ []) ∧
    (∀ (fwTable : List Row) (e : Entity) (entity_ids : List Nat) (fuel : Nat) (s : St),
       List.Chain' (· ≤ ·)
         (_get_filmworks_ids_with_related_entities fwTable e entity_ids fuel s).2.2 ∧
       (_get_filmworks_ids_with_related_entities fwTable e entity_ids fuel s).2.2.length =
         (_get_filmworks_ids_with_related_entities fwTable e entity_ids fuel s).1.length ∧
       ∀ pg ∈ (_get_filmworks_ids_with_related_entities fwTable e entity_ids fuel s).1,
         pg ≠ []) := by
  refine ⟨?_, ?_, ?_, ?_⟩
  · intro table p wm
    exact ⟨sorted_runQuery table p wm, fun r hr => (mem_runQuery hr).2.2⟩
  · intro db e fuel s
    obtain ⟨hc, hm, hne⟩ := gue_mono db e fuel s
    exact ⟨chain'_le_of_chain_lt hc, hm, hne⟩
  · intro table e fuel s
    obtain ⟨hc, hm, hne⟩ := gurei_mono table e fuel s
    exact ⟨chain'_le_of_chain_lt hc, hm, hne⟩
  · intro fwTable e entity_ids fuel s
    obtain ⟨hc, hm, hne⟩ := gfwi_mono fwTable e entity_ids fuel s
    exact ⟨chain'_le_of_chain_lt hc, hm, hne⟩

/-- C2 witness: the monotonicity theorem applied to a concrete run. -/
theorem watermark_monotonicity_witness :
    List.Chain' (· ≤ ·) (_get_updated_entity shortDb .person 5 []).2.2 ∧
    ([{ id := 1, modified := 3 }, { id := 2, modified := 5 }] : List Row) ≠ [] :=
  ⟨(watermark_monotonicity.2.1 shortDb .person 5 []).1,
   (watermark_monotonicity.2.1 shortDb .person 5 []).2.2
     [{ id := 1, modified := 3 }, { id := 2, modified := 5 }] (by decide)⟩

/-- C3: Chunking boundary.  In the direct-change reader loop, a full page
(exactly `_CHUNK_SIZE` rows) makes the loop poll again from the advanced
watermark; an empty result ends it immediately with no page; a non-empty
result shorter than `_CHUNK_SIZE` is emitted and the following poll is
empty, so no further page is ever emitted for that invocation. -/
theorem chunking_boundary (db : DB) (e : Entity) (s : St) :
    ((execEntityQuery (db.table e) (stGet s (_get_state_key e.name))).length = _CHUNK_SIZE →
       ∀ fuel, (_get_updated_entity db e (fuel + 1) s).1 =
         execEntityQuery (db.table e) (stGet s (_get_state_key e.name)) ::
           (_get_updated_entity db e fuel
             (stSave s (_get_state_key e.name)
               (lastModified (execEntityQuery (db.table e)
                 (stGet s (_get_state_key e.name)))))).1) ∧
    (execEntityQuery (db.table e) (stGet s (_get_state_key e.name)) = [] →
       ∀ fuel, (_get_updated_entity db e fuel s).1 = []) ∧
    (execEntityQuery (db.table e) (stGet s (_get_state_key e.name)) ≠ [] →
       (execEntityQuery (db.table e) (stGet s (_get_state_key e.name))).length < _CHUNK_SIZE →
       ∀ fuel, (_get_updated_entity db e (fuel + 1) s).1 =
         [execEntityQuery (db.table e) (stGet s (_get_state_key e.name))]) := by
  refine ⟨?_, ?_, ?_⟩
  · intro hlen fuel
    have hne : execEntityQuery (db.table e) (stGet s (_get_state_key e.name)) ≠ [] := by
      intro hnil
      rw [hnil] at hlen
      simp [_CHUNK_SIZE] at hlen
    rw [gue_eq_cons db e s fuel hne]
  · intro hnil fuel
    rw [gue_eq_nil db e s hnil fuel]
  · intro hne hlen fuel
    rw [gue_eq_cons db e s fuel hne]
    have hmnil : execEntityQuery (db.table e)
        (stGet (stSave s (_get_state_key e.name)
          (lastModified (execEntityQuery (db.table e) (stGet s (_get_state_key e.name)))))
          (_get_state_key e.name)) = [] := by
      rw [stGet_stSave_self, execEntityQuery_eq_runQuery, runQuery_eq_nil_iff]
      rw [execEntityQuery_eq_runQuery] at hne hlen
      exact matching_eq_nil_of_short hne hlen
    rw [gue_eq_nil db e _ hmnil fuel]

/-- C3 witness: a page of exactly 100 rows polls again; a short page ends
the stream after itself. -/
theorem chunking_boundary_witness :
    (_get_updated_entity fullDb .person (0 + 1) []).1 =
      execEntityQuery (fullDb.table .person) (stGet [] (_get_state_key Entity.person.name)) ::
        (_get_updated_entity fullDb .person 0
          (stSave [] (_get_state_key Entity.person.name)
            (lastModified (execEntityQuery (fullDb.table .person)
              (stGet [] (_get_state_key Entity.person.name)))))).1 ∧
    (_get_updated_entity shortDb .person (3 + 1) []).1 =
      [execEntityQuery (shortDb.table .person)
        (stGet [] (_get_state_key Entity.person.name))] :=
  ⟨(chunking_boundary fullDb .person []).1 (by decide) 0,
   (chunking_boundary shortDb .person []).2.2 (by decide) (by decide) 3⟩

/-- C4: Cascade reset idempotence.  Re-running the full cascade pipeline
for a fixed related kind immediately after a completed run, with unchanged
data, produces no output; and the Stage-B sub-stream always leaves its
`"<kind>_filmwork"` watermark reset to the epoch when it terminates on its
empty page. -/
theorem cascade_reset_idempotence :
    (∀ (db : DB) (e : Entity) (s : St),
       (_get_filmorks_with_updated_related_entities db e
         (_get_filmorks_with_updated_related_entities db e s).2).1 = []) ∧
    (∀ (fwTable : List Row) (e : Entity) (entity_ids : List Nat) (s : St),
       stGet ((_get_filmworks_ids_with_related_entities fwTable e entity_ids
         (fwTable.length + 1) s).2.1) (_get_state_key (e.name ++ "_filmwork")) = epoch) := by
  refine ⟨?_, ?_⟩
  · intro db e s
    have hframe : stGet ((_get_filmorks_with_updated_related_entities db e s).2)
        (_get_state_key (e.name ++ "_related")) =
        stGet ((_get_updated_related_entities_ids (db.table e) e
          ((db.table e).length + 1) s).2.1) (_get_state_key (e.name ++ "_related")) := by
      show stGet ((stageB_all db.film_work e
        (_get_updated_related_entities_ids (db.table e) e ((db.table e).length + 1) s).1
        (_get_updated_related_entities_ids (db.table e) e
          ((db.table e).length + 1) s).2.1).2)
          (_get_state_key (e.name ++ "_related")) = _
      exact stageB_frame db.film_work e _ _ _ (keyRel_ne_keyFw e)
    have hx : execEntityQuery (db.table e)
        (stGet ((_get_filmorks_with_updated_related_entities db e s).2)
          (_get_state_key (e.name ++ "_related"))) = [] := by
      rw [hframe, execEntityQuery_eq_runQuery, runQuery_eq_nil_iff]
      exact gurei_exhaust (db.table e) e ((db.table e).length + 1) s
        (Nat.lt_succ_of_le (List.length_filter_le _ _))
    show (stageB_all db.film_work e
      (_get_updated_related_entities_ids (db.table e) e ((db.table e).length + 1)
        ((_get_filmorks_with_updated_related_entities db e s).2)).1
      (_get_updated_related_entities_ids (db.table e) e ((db.table e).length + 1)
        ((_get_filmorks_with_updated_related_entities db e s).2)).2.1).1 = []
    rw [gurei_eq_nil (db.table e) e _ hx]
    rfl
  · intro fwTable e entity_ids s
    exact gfwi_reset fwTable e entity_ids (fwTable.length + 1) s
      (Nat.lt_succ_of_le (List.length_filter_le _ _))

/-- C5: Extraction ordering.  `get_updated_filmworks` is exactly the
person-driven cascade output, then the genre-driven cascade output, then
the film_work direct-change stream, in that order; each stage is run to
exhaustion before the next begins (the next stage's output follows it in
the concatenation and is computed from the state the previous stage left
behind). -/
theorem extraction_order (db : DB) (s : St) :
    (get_updated_filmworks db s).1 =
      (_get_filmorks_with_updated_related_entities db .person s).1 ++
      (_get_filmorks_with_updated_related_entities db .genre
        (_get_filmorks_with_updated_related_entities db .person s).2).1 ++
      (_get_updated_entity db .filmwork (db.film_work.length + 1)
        (_get_filmorks_with_updated_related_entities db .genre
          (_get_filmorks_with_updated_related_entities db .person s).2).2).1 := rfl

/-- C9: Implicit precondition of the by-id query builder.  With an absent
or empty identifier list and no marker the builder hits its failing
assertion (modelled as `none`); inside the pipeline every batch handed to
`_get_filmworks_by_ids` is an id-projection of a non-empty page, so the
builder always takes the by-id branch. -/
theorem byids_assertion_guard :
    (_build_sql_requesting_filmworks none none = none ∧
     _build_sql_requesting_filmworks (some []) none = none) ∧
    (∀ (fwTable : List Row) (e : Entity) (entity_ids : List Nat) (fuel : Nat) (s : St)
       (batch : List Nat),
       batch ∈ (_get_filmworks_ids_with_related_entities fwTable e entity_ids fuel s).1 →
       batch ≠ [] ∧
       _build_sql_requesting_filmworks (some batch) none = some (FwQuery.byIds batch)) := by
  refine ⟨⟨rfl, rfl⟩, ?_⟩
  intro fwTable e entity_ids fuel s batch hb
  have hne : batch ≠ [] := (gfwi_mono fwTable e entity_ids fuel s).2.2 batch hb
  refine ⟨hne, ?_⟩
  cases batch with
  | nil => exact absurd rfl hne
  | cons i rest => rfl

/-- C9 witness: the guard theorem applied to a batch of a concrete run. -/
theorem byids_assertion_guard_witness :
    ([1000] : List Nat) ≠ [] ∧
    _build_sql_requesting_filmworks (some [1000]) none = some (FwQuery.byIds [1000]) :=
  byids_assertion_guard.2 okDb.film_work .person [101] 2 [] [1000] (by decide)

/-- C1 counterexample: with 101 person rows all sharing marker 1 (a tie on
`modified`), Stage A's first page holds 100 of them, the saved watermark
equals the tied marker, and the strict `modified > watermark` filter drops
the 101st person from the next page.  Filmwork `rowA` references only that
person and its own marker is not past the filmwork watermark, so
`get_updated_filmworks` emits nothing at all — the claim's premises hold
yet `rowA` is never emitted. -/
theorem cascade_completeness_counterexample :
    rowR ∈ exDb.person ∧ rowA ∈ exDb.film_work ∧ rowR.id ∈ rowA.refs .person ∧
    stGet exSt (_get_state_key (Entity.person.name ++ "_related")) < rowR.modified ∧
    ¬ stGet exSt (_get_state_key Entity.filmwork.name) < rowA.modified ∧
    stGet exSt (_get_state_key (Entity.person.name ++ "_filmwork")) = epoch ∧
    (get_updated_filmworks exDb exSt).1 = [] := by
  refine ⟨?_, ?_, ?_, ?_, ?_, ?_, ?_⟩ <;> decide

/-- C1 amended: cascade completeness holds once the related table and the
film_work table carry pairwise strictly increasing markers (no ties, as the
spec's own termination argument assumes) and the filmwork's marker is
strictly after the epoch: any filmwork referencing a related row whose
marker is past the `"<kind>_related"` watermark is emitted by
`get_updated_filmworks` at least once via the cascade, with the
`"<kind>_filmwork"` watermark starting at the epoch, even though its own
marker is not past the filmwork direct-change watermark. -/
theorem cascade_completeness_amended (db : DB) (s : St) (e : Entity) (r A : Row)
    (he : e = .person ∨ e = .genre)
    (hsortT : (db.table e).Pairwise (fun a b : Row => a.modified < b.modified))
    (hsortF : db.film_work.Pairwise (fun a b : Row => a.modified < b.modified))
    (hr : r ∈ db.table e) (hA : A ∈ db.film_work) (href : r.id ∈ A.refs e)
    (hwmR : stGet s (_get_state_key (e.name ++ "_related")) < r.modified)
    ( _hAfw : ¬ stGet s (_get_state_key Entity.filmwork.name) < A.modified)
    (hwmF : stGet s (_get_state_key (e.name ++ "_filmwork")) = epoch)
    (hApos : epoch < A.modified) :
    ∃ out ∈ (get_updated_filmworks db s).1, A ∈ out := by
  rcases he with he | he
  · subst he
    obtain ⟨out, hout, hAout⟩ := cascade_complete db .person s r A hsortT hsortF
      hr hA href hwmR hwmF hApos
    refine ⟨out, ?_, hAout⟩
    show out ∈ (_get_filmorks_with_updated_related_entities db .person s).1 ++
      (_get_filmorks_with_updated_related_entities db .genre
        (_get_filmorks_with_updated_related_entities db .person s).2).1 ++
      (_get_updated_entity db .filmwork (db.film_work.length + 1)
        (_get_filmorks_with_updated_related_entities db .genre
          (_get_filmorks_with_updated_related_entities db .person s).2).2).1
    exact List.mem_append_left _ (List.mem_append_left _ hout)
  · subst he
    have h1 : stGet ((_get_filmorks_with_updated_related_entities db .person s).2)
        (_get_state_key (Entity.genre.name ++ "_related")) =
        stGet s (_get_state_key (Entity.genre.name ++ "_related")) :=
      cascade_frame db .person s _ (by decide) (by decide)
    have h2 : stGet ((_get_filmorks_with_updated_related_entities db .person s).2)
        (_get_state_key (Entity.genre.name ++ "_filmwork")) =
        stGet s (_get_state_key (Entity.genre.name ++ "_filmwork")) :=
      cascade_frame db .person s _ (by decide) (by decide)
    obtain ⟨out, hout, hAout⟩ := cascade_complete db .genre
      ((_get_filmorks_with_updated_related_entities db .person s).2) r A hsortT hsortF
      hr hA href (by rw [h1]; exact hwmR) (by rw [h2]; exact hwmF) hApos
    refine ⟨out, ?_, hAout⟩
    show out ∈ (_get_filmorks_with_updated_related_entities db .person s).1 ++
      (_get_filmorks_with_updated_related_entities db .genre
        (_get_filmorks_with_updated_related_entities db .person s).2).1 ++
      (_get_updated_entity db .filmwork (db.film_work.length + 1)
        (_get_filmorks_with_updated_related_entities db .genre
          (_get_filmorks_with_updated_related_entities db .person s).2).2).1
    exact List.mem_append_left _ (List.mem_append_right _ hout)

/-- C1 witness: the amended completeness theorem at a concrete database
with distinct markers. -/
theorem cascade_completeness_amended_witness :
    ∃ out ∈ (get_updated_filmworks okDb exSt).1, rowA ∈ out :=
  cascade_completeness_amended okDb exSt .person rowR rowA (Or.inl rfl)
    (by decide) (by decide) (by decide) (by decide) (by decide)
    (by decide) (by decide) (by decide) (by decide)

/-- C6: Retry attempt bound.  With `attempts_threshold = N` and a callable
that raises a declared (retryable) fault on every invocation, the wrapper
re-raises that fault after exactly `N + 1` invocations; with `N = 2` and a
callable that faults three times then would succeed, the wrapper raises
after the third call — the fourth invocation (which would have succeeded)
never happens.  A fault outside the declared exceptions tuple propagates
after a single invocation. -/
theorem retry_attempt_bound :
    (∀ (α : Type) (cfg : BackoffCfg) (exceptions : List Fault) (fault : Fault)
       (f : ℕ → Except Fault α),
       exceptions.contains fault = true → (∀ i, f i = .error fault) →
       backoffRun cfg exceptions f =
         (.error fault, cfg.attempts_threshold + 1,
          (List.range' 1 cfg.attempts_threshold).map (sleepTime cfg))) ∧
    (∀ (α : Type) (cfg : BackoffCfg) (exceptions : List Fault) (fault : Fault)
       (f : ℕ → Except Fault α),
       exceptions.contains fault = false → f 0 = .error fault →
       backoffRun cfg exceptions f = (.error fault, 1, [])) ∧
    backoffRun { defaultCfg with attempts_threshold := 2 } [Fault.operational]
        (fun i => if i < 3 then (Except.error Fault.operational : Except Fault Nat)
                  else Except.ok 0) =
      (.error Fault.operational, 3, [1 / 5, 2 / 5]) := by
  refine ⟨?_, ?_, ?_⟩
  · intro α cfg exceptions fault f hmem hall
    unfold backoffRun
    rw [backoffInner_all_fail cfg exceptions fault f hmem hall
      cfg.attempts_threshold 1 0 [] (by omega) (by omega)]
    have h1 : cfg.attempts_threshold + 2 - 1 = cfg.attempts_threshold + 1 := by omega
    have h2 : cfg.attempts_threshold + 1 - 1 = cfg.attempts_threshold := by omega
    rw [h1, h2]
    simp
  · intro α cfg exceptions fault f hne h0
    unfold backoffRun
    exact backoffInner_nonretry cfg exceptions f 1 0 [] fault h0 hne
  · unfold backoffRun
    rw [backoffInner_retry { defaultCfg with attempts_threshold := 2 } [Fault.operational]
      (fun i => if i < 3 then (Except.error Fault.operational : Except Fault Nat)
                else Except.ok 0) 1 0 [] Fault.operational rfl rfl (by decide)]
    rw [backoffInner_retry { defaultCfg with attempts_threshold := 2 } [Fault.operational]
      (fun i => if i < 3 then (Except.error Fault.operational : Except Fault Nat)
                else Except.ok 0) 2 1 _ Fault.operational rfl rfl (by decide)]
    rw [backoffInner_raise { defaultCfg with attempts_threshold := 2 } [Fault.operational]
      (fun i => if i < 3 then (Except.error Fault.operational : Except Fault Nat)
                else Except.ok 0) 3 2 _ Fault.operational rfl rfl (by decide)]
    norm_num [sleepTime, defaultCfg]

/-- C6 witness: the all-fail bound applied with threshold 1. -/
theorem retry_attempt_bound_witness :
    backoffRun { defaultCfg with attempts_threshold := 1 } [Fault.operational]
        (fun _ => (Except.error Fault.operational : Except Fault Nat)) =
      (.error Fault.operational, 2,
       (List.range' 1 1).map (sleepTime { defaultCfg with attempts_threshold := 1 })) :=
  retry_attempt_bound.1 Nat { defaultCfg with attempts_threshold := 1 }
    [Fault.operational] Fault.operational
    (fun _ => (Except.error Fault.operational : Except Fault Nat)) (by decide) (fun _ => rfl)

/-- C7: Validation failure handling.  If any row in a fetched page fails
to parse, normalization of the whole page raises and no partial list is
produced; the raised fault is the parse's `ValidationError`; and because
`_normalize` runs outside the `backoff(exceptions=(OperationalError,))`
wrapper — and the wrapper does not catch `ValidationError` anyway — the
fault is never retried: the database call happens once, no sleep occurs. -/
theorem validation_failure_handling :
    (∀ (ρ β : Type) (parse : ρ → Except Fault β) (data : List ρ) (r : ρ) (e : Fault),
       r ∈ data → parse r = .error e → ∃ e', _normalize parse data = .error e') ∧
    (∀ (ρ β : Type) (parse : ρ → Except Fault β) (data : List ρ) (e : Fault),
       _normalize parse data = .error e → ∃ r ∈ data, parse r = .error e) ∧
    (∀ (ρ β : Type) (dbcall : ℕ → Except Fault (List ρ)) (parse : ρ → Except Fault β)
       (rows : List ρ) (r : ρ),
       dbcall 0 = .ok rows → r ∈ rows → parse r = .error Fault.validation →
       (∀ x e, parse x = .error e → e = Fault.validation) →
       (fetchAndNormalize dbcall parse).1 = .error Fault.validation ∧
       (fetchAndNormalize dbcall parse).2.1 = 1 ∧
       (fetchAndNormalize dbcall parse).2.2 = []) ∧
    (∀ (α : Type) (cfg : BackoffCfg) (g : ℕ → Except Fault α),
       g 0 = .error Fault.validation →
       backoffRun cfg [Fault.operational] g = (.error Fault.validation, 1, [])) := by
  refine ⟨?_, ?_, ?_, ?_⟩
  · intro ρ β parse data r e hr hp
    exact normalize_error_of_mem parse data r e hr hp
  · intro ρ β parse data e he
    exact normalize_error_source parse data e he
  · intro ρ β dbcall parse rows r h0 hr hpr hval
    have hdb : _db_execute dbcall = (.ok rows, 1, []) := by
      unfold _db_execute backoffRun
      exact backoffInner_ok defaultCfg [Fault.operational] dbcall 1 0 [] rows h0
    obtain ⟨e', he'⟩ := normalize_error_of_mem parse rows r Fault.validation hr hpr
    have hev : e' = Fault.validation := by
      obtain ⟨r2, _, hpr2⟩ := normalize_error_source parse rows e' he'
      exact hval r2 e' hpr2
    subst hev
    unfold fetchAndNormalize
    rw [hdb]
    exact ⟨he', rfl, rfl⟩
  · intro α cfg g h0
    unfold backoffRun
    exact backoffInner_nonretry cfg [Fault.operational] g 1 0 [] Fault.validation h0
      (by decide)

/-- C7 witness: a concrete page with one malformed row fails whole, with a
validation fault, one database call and no retry sleep. -/
theorem validation_failure_handling_witness :
    (fetchAndNormalize exDbcall exParse).1 = .error Fault.validation ∧
    (fetchAndNormalize exDbcall exParse).2.1 = 1 ∧
    (fetchAndNormalize exDbcall exParse).2.2 = [] :=
  validation_failure_handling.2.2.1 (Option Nat) Nat exDbcall exParse exRows none rfl
    (by decide) rfl
    (by
      intro x e hx
      cases x with
      | none =>
        injection hx with h1
        exact h1.symm
      | some v => simp [exParse] at hx)

/-- C8: Backoff delay schedule.  The sleep before the k-th retry is
`sleepTime cfg k`, which equals `min(initialDelay * multiplier^k,
maxDelay)`; any run's sleep trace is the consecutive values
`sleepTime cfg 1, sleepTime cfg 2, ...`; with the default configuration
every sleep is at most 10 seconds and the first sleep is
`0.1 * 2 = 1/5` seconds, the value the formula gives for attempt 1. -/
theorem backoff_delay_schedule :
    (∀ (cfg : BackoffCfg) (n : ℕ),
       sleepTime cfg n = min (cfg.start_sleep_time * (cfg.factor : ℚ) ^ n)
         cfg.border_sleep_time) ∧
    (∀ (α : Type) (cfg : BackoffCfg) (exceptions : List Fault) (f : ℕ → Except Fault α),
       ∃ j, (backoffRun cfg exceptions f).2.2 =
         (List.range' 1 j).map (sleepTime cfg)) ∧
    (∀ n : ℕ, sleepTime defaultCfg n ≤ 10) ∧
    sleepTime defaultCfg 1 = 1 / 5 := by
  refine ⟨?_, ?_, ?_, ?_⟩
  · intro cfg n
    by_cases h : cfg.start_sleep_time * (cfg.factor : ℚ) ^ n < cfg.border_sleep_time
    · rw [min_eq_left (le_of_lt h)]
      simp [sleepTime, h]
    · rw [min_eq_right (not_lt.mp h)]
      simp [sleepTime, h]
  · intro α cfg exceptions f
    obtain ⟨j, hj⟩ := backoffInner_sleep_shape cfg exceptions f
      cfg.attempts_threshold 1 0 [] (by omega)
    exact ⟨j, by rw [backoffRun, hj]; simp⟩
  · intro n
    by_cases h : defaultCfg.start_sleep_time * (defaultCfg.factor : ℚ) ^ n <
        defaultCfg.border_sleep_time
    · have hs : sleepTime defaultCfg n =
          defaultCfg.start_sleep_time * (defaultCfg.factor : ℚ) ^ n := by
        simp [sleepTime, h]
      rw [hs]
      exact le_of_lt h
    · have hs : sleepTime defaultCfg n = defaultCfg.border_sleep_time := by
        simp [sleepTime, h]
      rw [hs]
      exact le_refl 10
  · norm_num [sleepTime, defaultCfg]

/-- C10: Backoff transparency on success.  Whatever the configuration and
declared exceptions, if the first invocation of the wrapped callable
returns a value, the wrapper returns exactly that value after exactly one
invocation and zero sleeps. -/
theorem backoff_transparency (α : Type) (cfg : BackoffCfg) (exceptions : List Fault)
    (f : ℕ → Except Fault α) (a : α) (h : f 0 = .ok a) :
    backoffRun cfg exceptions f = (.ok a, 1, []) := by
  unfold backoffRun
  exact backoffInner_ok cfg exceptions f 1 0 [] a h

/-- C10 witness: the transparency theorem at a concrete callable. -/
theorem backoff_transparency_witness :
    backoffRun defaultCfg [Fault.operational, Fault.other]
      (fun _ => (Except.ok 42 : Except Fault Nat)) = (.ok 42, 1, []) :=
  backoff_transparency Nat defaultCfg [Fault.operational, Fault.other]
    (fun _ => (Except.ok 42 : Except Fault Nat)) 42 rfl
